import Mathlib

/-!
Verification development for the notebook-app backend.

Shallow embedding of the document indexing / retrieval pipeline and the
spaced-repetition scheduler:
* `src/backend/app/services/text_chunker.py` (`TextChunker`)
* `src/backend/app/routers/flashcards.py` (`create_card_review`)
* `src/backend/app/services/llm.py` (`LLMService.generate_flashcards`, parse step)
* `src/backend/app/services/indexing.py` (`IndexingService.index_document`)
* `src/backend/app/routers/notebooks.py` (`chat_with_notebook.event_generator`)
* `src/backend/app/services/vector_store.py` (`VectorStoreService.query`)

Python strings are modelled as Lean `String`, token counting as an arbitrary
function `String → Nat` (the tokenizer is an injected dependency in the
source: `tiktoken.get_encoding(encoding_name)`), floats as `ℚ`.
-/

namespace NotebookApp

/-! ### Python string primitives used by the chunker -/

/-- Python `str.isspace`-style test for the ASCII whitespace the sources use. -/
def pyWS (c : Char) : Bool := c.isWhitespace

/-- Python `str.strip()` on a character list: drop whitespace at both ends. -/
def trimChars (l : List Char) : List Char :=
  ((l.dropWhile pyWS).reverse.dropWhile pyWS).reverse

/-- Python `str.strip()`. -/
def pyStrip (s : String) : String := String.mk (trimChars s.data)

/-- Worker for Python `str.split()` (split on whitespace runs, dropping empties). -/
def wordsGo : List Char → List Char → List String
  | [], cur => if cur = [] then [] else [String.mk cur.reverse]
  | c :: rest, cur =>
    if pyWS c then
      if cur = [] then wordsGo rest []
      else String.mk cur.reverse :: wordsGo rest []
    else wordsGo rest (c :: cur)

/-- Python `sentence.split()` as used in `_split_long_sentence`. -/
def pyWords (s : String) : List String := wordsGo s.data []

/-- Python `" ".join(l)`. -/
def joinSp : List String → String
  | [] => ""
  | [s] => s
  | s :: rest => s ++ " " ++ joinSp rest

/-- Sentence-terminator test for the regex `(?<=[.!?])`. -/
def isSentEnd (c : Char) : Bool := c = '.' || c = '!' || c = '?'

/-- Scanner for `re.split(r'(?<=[.!?])\s+', text)`: `cur` is the current piece
(reversed), `skipping` means we are inside the whitespace run of a match. -/
def sentSplitGo : List Char → List Char → Bool → List (List Char) → List (List Char)
  | [], cur, _, acc => acc ++ [cur.reverse]
  | c :: rest, cur, skipping, acc =>
    if skipping then
      if pyWS c then sentSplitGo rest [] true acc
      else sentSplitGo rest [c] false acc
    else
      match cur with
      | p :: _ =>
        if isSentEnd p && pyWS c then sentSplitGo rest [] true (acc ++ [cur.reverse])
        else sentSplitGo rest (c :: cur) false acc
      | [] => sentSplitGo rest [c] false acc

/-! ### TextChunker (src/backend/app/services/text_chunker.py) -/

/-- Constructor arguments of `TextChunker`: chunk size, overlap, and the token
counting function `len(self.encoding.encode(·))` of the injected encoding. -/
structure ChunkerConfig where
  chunkSize : Nat
  chunkOverlap : Nat
  countTokens : String → Nat

/-- Total token count of a sentence list (the sum the loop tracks). -/
def sumTokens (cfg : ChunkerConfig) (l : List String) : Nat :=
  (l.map cfg.countTokens).sum

/-- `TextChunker._split_into_sentences`: regex split, then strip and drop empties. -/
def splitIntoSentences (text : String) : List String :=
  (((sentSplitGo text.data [] false []).map (fun l => pyStrip (String.mk l))).filter
    (fun s => s ≠ ""))

/-- Loop body of `TextChunker._split_long_sentence`, carrying
`(chunks, current, current_tokens)` exactly as the Python code does. -/
def splitLongGo (cfg : ChunkerConfig) :
    List String → List String → List String → Nat → List String
  | [], chunks, current, _ =>
    if current = [] then chunks else chunks ++ [joinSp current]
  | w :: ws, chunks, current, currentTokens =>
    let wordTokens := cfg.countTokens (w ++ " ")
    if cfg.chunkSize < currentTokens + wordTokens then
      splitLongGo cfg ws
        (if current = [] then chunks else chunks ++ [joinSp current]) [w] wordTokens
    else
      splitLongGo cfg ws chunks (current ++ [w]) (currentTokens + wordTokens)

/-- `TextChunker._split_long_sentence`. -/
def splitLongSentence (cfg : ChunkerConfig) (sentence : String) : List String :=
  splitLongGo cfg (pyWords sentence) [] [] 0

/-- Loop of `TextChunker._get_overlap_sentences`: walk the reversed sentence
list, prepending while the running total stays within `target_tokens`, and
stop at the first sentence that does not fit. -/
def getOverlapGo (cfg : ChunkerConfig) (targetTokens : Nat) :
    List String → List String → Nat → List String
  | [], overlap, _ => overlap
  | s :: rest, overlap, tokens =>
    let sentenceTokens := cfg.countTokens s
    if tokens + sentenceTokens ≤ targetTokens then
      getOverlapGo cfg targetTokens rest (s :: overlap) (tokens + sentenceTokens)
    else overlap

/-- `TextChunker._get_overlap_sentences`. -/
def getOverlapSentences (cfg : ChunkerConfig) (sentences : List String)
    (targetTokens : Nat) : List String :=
  getOverlapGo cfg targetTokens sentences.reverse [] 0

/-- Main loop of `TextChunker.chunk_text`, carrying
`(chunks, current_chunk, current_tokens)`. -/
def chunkLoop (cfg : ChunkerConfig) :
    List String → List String → List String → Nat → List String
  | [], chunks, current, _ =>
    if current = [] then chunks else chunks ++ [joinSp current]
  | s :: rest, chunks, current, currentTokens =>
    let sentenceTokens := cfg.countTokens s
    if cfg.chunkSize < sentenceTokens then
      chunkLoop cfg rest
        ((if current = [] then chunks else chunks ++ [joinSp current]) ++
          splitLongSentence cfg s) [] 0
    else if cfg.chunkSize < currentTokens + sentenceTokens then
      let overlap := getOverlapSentences cfg current cfg.chunkOverlap
      chunkLoop cfg rest (chunks ++ [joinSp current]) (overlap ++ [s])
        (sumTokens cfg (overlap ++ [s]))
    else
      chunkLoop cfg rest chunks (current ++ [s]) (currentTokens + sentenceTokens)

/-- `TextChunker.chunk_text`. -/
def chunkText (cfg : ChunkerConfig) (text : String) : List String :=
  if pyStrip text = "" then []
  else chunkLoop cfg (splitIntoSentences text) [] [] 0

/-- Whitespace-delimited word-count tokenizer, used to instantiate the abstract
tokenizer on concrete inputs. -/
def wordCount (s : String) : Nat := (pyWords s).length

example : splitIntoSentences "a b c d. e f g h i j k l." =
    ["a b c d.", "e f g h i j k l."] := by decide

example : chunkText ⟨10, 5, wordCount⟩ "a b c d. e f g h i j k l." =
    ["a b c d.", "a b c d. e f g h i j k l."] := by decide

example : chunkText ⟨10, 5, wordCount⟩ "   " = [] := by decide

/-! ### Spaced-repetition scheduler (src/backend/app/routers/flashcards.py,
`create_card_review`, lines 156-167) -/

/-- Python `int(·)` on a rational: truncation toward zero. -/
def pyInt (q : ℚ) : ℤ := q.num.tdiv q.den

/-- Mutable SRS fields of a `Flashcard` row: `interval_days` (Integer),
`ease_factor` (Float, modelled as ℚ), `next_review_at` (nullable DateTime,
modelled as seconds since epoch). -/
structure Card where
  interval_days : ℤ
  ease_factor : ℚ
  next_review_at : Option ℤ
deriving DecidableEq

/-- SRS update performed by `create_card_review` on the card: the simplified
SM-2 interval/ease update followed by
`next_review_at = datetime.now(...) + timedelta(days=card.interval_days)`
(one day is 86400 seconds). -/
def createCardReview (card : Card) (quality : ℤ) (now : ℤ) : Card :=
  let interval :=
    if 3 ≤ quality then
      if card.interval_days = 1 then 6
      else pyInt ((card.interval_days : ℚ) * card.ease_factor)
    else 1
  let ease :=
    max (13/10 : ℚ)
      (card.ease_factor +
        ((1/10 : ℚ) - ((5 - quality : ℤ) : ℚ) *
          ((2/25 : ℚ) + ((5 - quality : ℤ) : ℚ) * (1/50 : ℚ))))
  { interval_days := interval, ease_factor := ease,
    next_review_at := some (now + interval * 86400) }

example : (createCardReview ⟨1, 5/2, none⟩ 4 0).interval_days = 6 := by
  norm_num [createCardReview, pyInt]
example : (createCardReview ⟨6, 5/2, none⟩ 5 0).interval_days = 15 := by
  norm_num [createCardReview, pyInt]
example : (createCardReview ⟨6, 5/2, none⟩ 5 0).ease_factor = 13/5 := by
  norm_num [createCardReview, pyInt]
example : (createCardReview ⟨7, 13/10, none⟩ 1 0).ease_factor = 13/10 := by
  norm_num [createCardReview, pyInt]

/-! ### Flashcard-generation response parsing
(src/backend/app/services/llm.py, `LLMService.generate_flashcards`,
lines 157-169) -/

/-- JSON values, as produced by Python's `json` module (numbers restricted to
integers, which is all the card format uses). -/
inductive Json where
  | null : Json
  | bool (b : Bool) : Json
  | num (n : ℤ) : Json
  | str (s : String) : Json
  | arr (xs : List Json) : Json
  | obj (fields : List (String × Json)) : Json

/-- Skip JSON whitespace. -/
def skipJsonWS (l : List Char) : List Char :=
  l.dropWhile (fun c => c = ' ' || c = '\t' || c = '\n' || c = '\r')

/-- Parse a run of decimal digits into a natural number (accumulator form). -/
def parseNatAux : List Char → Nat → Nat × List Char
  | c :: rest, acc =>
    if c.isDigit then parseNatAux rest (acc * 10 + (c.toNat - 48))
    else (acc, c :: rest)
  | [], acc => (acc, [])

/-- Parse a JSON string body after the opening quote (escapes limited to the
two the card payloads need). -/
def parseStrBody : Nat → List Char → Option (List Char × List Char)
  | 0, _ => none
  | _ + 1, [] => none
  | fuel + 1, c :: rest =>
    if c = '"' then some ([], rest)
    else if c = '\\' then
      match rest with
      | e :: rest' =>
        match parseStrBody fuel rest' with
        | some (body, rem) => some (e :: body, rem)
        | none => none
      | [] => none
    else
      match parseStrBody fuel rest with
      | some (body, rem) => some (c :: body, rem)
      | none => none

/-- Pending task of the recursive-descent JSON parser: parse one value, or the
remaining items of an array, or the remaining members of an object. -/
inductive PTask where
  | value (l : List Char) : PTask
  | arrItems (l : List Char) (acc : List Json) : PTask
  | objItems (l : List Char) (acc : List (String × Json)) : PTask

/-- Modelled from the spec: `json.loads` of Python's standard library (an
external collaborator of `generate_flashcards`); recursive-descent parser,
fuelled for termination (structural recursion on the fuel). -/
def parseRun : Nat → PTask → Option (Json × List Char)
  | 0, _ => none
  | fuel + 1, .value l =>
    match l with
    | [] => none
    | c :: rest =>
      if c = 'n' then
        if rest.take 3 = ['u', 'l', 'l'] then some (.null, rest.drop 3) else none
      else if c = 't' then
        if rest.take 3 = ['r', 'u', 'e'] then some (.bool true, rest.drop 3)
        else none
      else if c = 'f' then
        if rest.take 4 = ['a', 'l', 's', 'e'] then some (.bool false, rest.drop 4)
        else none
      else if c = '"' then
        match parseStrBody (fuel + 1) rest with
        | some (body, rem) => some (.str (String.mk body), rem)
        | none => none
      else if c = '-' then
        match rest with
        | d :: _ =>
          if d.isDigit then
            let (n, rem) := parseNatAux rest 0
            some (.num (-(n : ℤ)), rem)
          else none
        | [] => none
      else if c.isDigit then
        let (n, rem) := parseNatAux (c :: rest) 0
        some (.num (n : ℤ), rem)
      else if c = '[' then
        match skipJsonWS rest with
        | ']' :: rem => some (.arr [], rem)
        | other => parseRun fuel (.arrItems other [])
      else if c = '\x7b' then
        match skipJsonWS rest with
        | '\x7d' :: rem => some (.obj [], rem)
        | other => parseRun fuel (.objItems other [])
      else none
  | fuel + 1, .arrItems l acc =>
    match parseRun fuel (.value (skipJsonWS l)) with
    | some (v, rest) =>
      match skipJsonWS rest with
      | ',' :: rest' => parseRun fuel (.arrItems rest' (acc ++ [v]))
      | ']' :: rest' => some (.arr (acc ++ [v]), rest')
      | _ => none
    | none => none
  | fuel + 1, .objItems l acc =>
    match skipJsonWS l with
    | '"' :: rest =>
      match parseStrBody fuel rest with
      | some (key, afterKey) =>
        match skipJsonWS afterKey with
        | ':' :: afterColon =>
          match parseRun fuel (.value (skipJsonWS afterColon)) with
          | some (v, rest') =>
            match skipJsonWS rest' with
            | ',' :: rest'' => parseRun fuel (.objItems rest'' (acc ++ [(String.mk key, v)]))
            | rem =>
              if rem.take 1 = ['\x7d'] then
                some (.obj (acc ++ [(String.mk key, v)]), rem.drop 1)
              else none
          | none => none
        | _ => none
      | none => none
    | _ => none

/-- Modelled from the spec: top-level `json.loads` — parse one value and
require only trailing whitespace. -/
def jsonLoads (s : String) : Option Json :=
  match parseRun (3 * s.data.length + 8) (.value (skipJsonWS s.data)) with
  | some (j, rest) => if skipJsonWS rest = [] then some j else none
  | none => none

example : jsonLoads " [1, \x7b\"q\": \"a\"\x7d ] " =
    some (.arr [.num 1, .obj [("q", .str "a")]]) := rfl
example : jsonLoads "[oops]" = none := rfl
example : jsonLoads "sure: [oops]" = none := rfl
example : jsonLoads "[]" = some (.arr []) := rfl

/-- `re.search(r'\[[\s\S]*\]', response_text)`: the (greedy) match runs from
the first `[` in the text through the last `]`, if such a pair exists. -/
def extractArraySub (s : String) : Option String :=
  let pre := s.data.dropWhile (fun c => c ≠ '[')
  let rev := pre.reverse.dropWhile (fun c => c ≠ ']')
  if rev = [] then none else some (String.mk rev.reverse)

example : extractArraySub "sure: [oops] done" = some "[oops]" := rfl
example : extractArraySub "x [a] y [b] z" = some "[a] y [b]" := rfl
example : extractArraySub "no brackets" = none := rfl

/-- Outcome of the `cards_data` parsing block of `generate_flashcards`
(llm.py lines 157-169): a parsed JSON value, the early `return []`, or an
uncaught exception propagating to the caller. -/
inductive ParseOutcome where
  | parsed (j : Json) : ParseOutcome
  | empty : ParseOutcome
  | raised (msg : String) : ParseOutcome

/-- The parsing block of `LLMService.generate_flashcards`: try a direct
`json.loads`; on `JSONDecodeError` search for a bracketed substring; if found,
`json.loads` it again — this second call is NOT inside the `try`, so its
failure raises — otherwise `return []`. -/
def parseCardsData (responseText : String) : ParseOutcome :=
  match jsonLoads responseText with
  | some j => .parsed j
  | none =>
    match extractArraySub responseText with
    | some sub =>
      match jsonLoads sub with
      | some j => .parsed j
      | none => .raised "json.decoder.JSONDecodeError"
    | none => .empty

example : parseCardsData "sure: [oops]" = .raised "json.decoder.JSONDecodeError" := rfl
example : parseCardsData "no cards, sorry" = .empty := rfl
example : parseCardsData "here: [1]" = .parsed (.arr [.num 1]) := rfl

/-! ### Indexing orchestrator
(src/backend/app/services/indexing.py, `IndexingService.index_document`) -/

/-- The fields of a `SourceMaterial` row that `index_document` consults:
`content_url` (nullable string; the falsy test `not material.content_url`
also fires on the empty string) and the `processed` flag. -/
structure Material where
  content_url : Option String
  processed : Bool

/-- Injected collaborator outcomes for one `index_document` run: the database
lookup, `storage.get`, `document_processor.extract_text_from_bytes`, and
`vector_store.add_documents`.  `Except.error` models a raised exception. -/
structure IndexCollab where
  findMaterial : Option Material
  storageGet : Except String (List Nat)
  extractText : List Nat → Except String String
  addDocuments : List String → Except String (List String)

/-- Python falsy test for an optional string (`not material.content_url`). -/
def falsyStr : Option String → Bool
  | none => true
  | some s => s = ""

/-- `IndexingService.index_document`.  Returns the boolean result together
with the final committed `processed` flag of the material (`none` when the
material row was not found). -/
def indexDocument (cfg : ChunkerConfig) (c : IndexCollab) : Bool × Option Bool :=
  match c.findMaterial with
  | none => (false, none)
  | some material =>
    if falsyStr material.content_url then (false, some material.processed)
    else
      match c.storageGet with
      | .error _ => (false, some material.processed)
      | .ok fileContent =>
        match c.extractText fileContent with
        | .error _ => (false, some material.processed)
        | .ok text =>
          if pyStrip text = "" then (true, some true)
          else
            let chunks := chunkText cfg text
            if chunks = [] then (true, some true)
            else
              match c.addDocuments chunks with
              | .error _ => (false, some material.processed)
              | .ok _ => (true, some true)

/-! ### Chat event stream
(src/backend/app/routers/notebooks.py, `chat_with_notebook.event_generator`
lines 585-666, and `_format_context_for_llm` lines 669-683) -/

/-- One retrieval hit as the router consumes it: the chunk text, the optional
`title` metadata entry, and the similarity score. -/
structure RagResult where
  text : String
  title : Option String
  similarity : ℚ

/-- One entry of the `sources` event payload. -/
structure SourceSummary where
  title : String
  similarity : ℚ
  preview : String
deriving DecidableEq

/-- SSE events emitted by `event_generator` (the `data` payloads, with the
JSON framing elided). -/
inductive SSEEvent where
  | status (message : String) : SSEEvent
  | sources (data : List SourceSummary) : SSEEvent
  | content (text : String) : SSEEvent
  | done : SSEEvent
  | error (message : String) : SSEEvent
deriving DecidableEq

/-- Floating-point formatting helpers the router uses, kept abstract:
`round(x, 2)` and the `f"{x:.0%}"` percent rendering. -/
structure ChatPrims where
  round2 : ℚ → ℚ
  pct : ℚ → String

/-- `r["text"][:150] + "..." if len(r["text"]) > 150 else r["text"]`. -/
def previewOf (t : String) : String :=
  if 150 < t.data.length then String.mk (t.data.take 150) ++ "..." else t

/-- The `sources_data` list comprehension (notebooks.py lines 621-628). -/
def sourcesData (pr : ChatPrims) (results : List RagResult) : List SourceSummary :=
  results.map fun r =>
    { title := r.title.getD "Unknown",
      similarity := pr.round2 r.similarity,
      preview := previewOf r.text }

/-- `_format_context_for_llm`. -/
def formatContextForLLM (pr : ChatPrims) (results : List RagResult) : String :=
  if results.isEmpty then "No relevant documents found."
  else
    String.intercalate "\n\n---\n\n"
      (results.enum.map fun p =>
        "[Document " ++ toString (p.1 + 1) ++ ": " ++
          p.2.title.getD "Unknown Document" ++
          "] (relevance: " ++ pr.pct p.2.similarity ++ ")\n" ++ p.2.text)

/-- Injected collaborator outcomes of one chat turn: the query rewrite, the
vector-store retrieval (as a function of the rewritten query), and the
completion stream (as a function of the formatted context; it yields a list
of text fragments and then optionally raises). -/
structure ChatCollab where
  rewrite : Except String String
  retrieve : String → Except String (List RagResult)
  stream : String → List String × Option String

/-- `chat_with_notebook.event_generator`: status → sources → content* → done,
with any stage failure converting to a single terminal `error` event. -/
def eventGenerator (pr : ChatPrims) (c : ChatCollab) : List SSEEvent :=
  match c.rewrite with
  | .error e => [.status "Analyzing your question...", .error e]
  | .ok rewrittenQuery =>
    match c.retrieve rewrittenQuery with
    | .error e =>
      [.status "Analyzing your question...", .status "Searching documents...",
        .error e]
    | .ok results =>
      let src := sourcesData pr results
      let context := formatContextForLLM pr results
      let (chunks, streamErr) := c.stream context
      [.status "Analyzing your question...", .status "Searching documents...",
        .sources src, .status "Generating response..."] ++
        chunks.map .content ++
        (match streamErr with
         | none => [.done]
         | some e => [.error e])

/-! ### Vector store (src/backend/app/services/vector_store.py,
`VectorStoreService.query`) -/

/-- Metadata stored with every chunk (add_documents lines 51-62; `title` comes
from the `additional_metadata` the indexing service merges in). -/
structure VMeta where
  source_material_id : String
  notebook_id : String
  user_id : String
  chunk_index : Nat
  total_chunks : Nat
  title : String
deriving DecidableEq

/-- One entry of the ChromaDB collection. -/
structure VEntry where
  id : String
  embedding : List ℚ
  document : String
  metadata : VMeta
deriving DecidableEq

/-- Insert into a list sorted by ascending key. -/
def insertByKey (key : VEntry → ℚ) (e : VEntry) : List VEntry → List VEntry
  | [] => [e]
  | x :: xs => if key e ≤ key x then e :: x :: xs else x :: insertByKey key e xs

/-- Insertion sort by ascending key. -/
def sortByKey (key : VEntry → ℚ) : List VEntry → List VEntry
  | [] => []
  | x :: xs => insertByKey key x (sortByKey key xs)

/-- Modelled from the spec: ChromaDB `collection.query` (external collaborator;
the repository configures the collection with cosine space and passes an
optional equality `where` filter on `notebook_id`).  The filter is applied at
the index — only matching entries are candidates — and the k nearest entries
by ascending distance are returned. -/
def chromaQuery (entries : List VEntry) (dist : List ℚ → List ℚ → ℚ)
    (queryEmbedding : List ℚ) (nResults : Nat) (whereNb : Option String) :
    List VEntry :=
  let candidates :=
    match whereNb with
    | some nb => entries.filter fun e => e.metadata.notebook_id = nb
    | none => entries
  (sortByKey (fun e => dist queryEmbedding e.embedding) candidates).take nResults

/-- One formatted result of `VectorStoreService.query` (lines 106-117). -/
structure QueryResult where
  id : String
  text : String
  metadata : VMeta
  distance : ℚ
  similarity : ℚ
deriving DecidableEq

/-- `VectorStoreService.query`: embed the query text, build the `where` clause
(`{"notebook_id": notebook_id}` only when `notebook_id` is truthy; the
`user_id` branch is commented out in the source), query the collection, and
format each hit with `similarity = 1 - distance`. -/
def vsQuery (entries : List VEntry) (embed : String → List ℚ)
    (dist : List ℚ → List ℚ → ℚ) (queryText : String)
    (notebook_id : Option String) (user_id : Option String) (nResults : Nat) :
    List QueryResult :=
  let queryEmbedding := embed queryText
  let whereNb : Option String :=
    match notebook_id with
    | some nb => if nb = "" then none else some nb
    | none => none
  (chromaQuery entries dist queryEmbedding nResults whereNb).map fun e =>
    { id := e.id, text := e.document, metadata := e.metadata,
      distance := dist queryEmbedding e.embedding,
      similarity := 1 - dist queryEmbedding e.embedding }

/-! ### Helper lemmas -/

/-- Python `int(·)` agrees with the floor on nonnegative rationals. -/
lemma pyInt_eq_floor (q : ℚ) (hq : 0 ≤ q) : pyInt q = ⌊q⌋ := by
  rw [Rat.floor_def, pyInt, Int.tdiv_eq_ediv (Rat.num_nonneg.mpr hq)
    (Int.natCast_nonneg q.den)]

lemma mem_insertByKey {key : VEntry → ℚ} {e x : VEntry} {l : List VEntry}
    (hx : x ∈ insertByKey key e l) : x = e ∨ x ∈ l := by
  induction l with
  | nil => simpa [insertByKey] using hx
  | cons y ys ih =>
    rw [insertByKey] at hx
    split at hx
    · simpa using hx
    · rcases List.mem_cons.mp hx with h | h
      · exact Or.inr (by simp [h])
      · rcases ih h with h' | h'
        · exact Or.inl h'
        · exact Or.inr (List.mem_cons_of_mem _ h')

lemma mem_sortByKey {key : VEntry → ℚ} {x : VEntry} {l : List VEntry}
    (hx : x ∈ sortByKey key l) : x ∈ l := by
  induction l with
  | nil => simpa [sortByKey] using hx
  | cons y ys ih =>
    rw [sortByKey] at hx
    rcases mem_insertByKey hx with h | h
    · simp [h]
    · exact List.mem_cons_of_mem _ (ih h)

/-! ### Theorems -/

/-- C4: recording a review updates the card exactly as the spec's SM-2
variant prescribes: interval 1 on failed recall, else 6 from interval 1, else
`floor(interval * ease)`; then the ease update floored at 1.3; then
`next_review_at = now + interval_days` days.  In particular interval 1 with
quality 4 yields 6, and interval 6 with ease 2.5 and quality 5 yields 15. -/
theorem srs_update_spec (card : Card) (quality now : ℤ)
    (h1 : 1 ≤ quality) (h5 : quality ≤ 5)
    (hi : 1 ≤ card.interval_days) (he : 0 ≤ card.ease_factor) :
    (createCardReview card quality now).interval_days =
      (if quality < 3 then 1
       else if card.interval_days = 1 then 6
       else ⌊(card.interval_days : ℚ) * card.ease_factor⌋) ∧
    (createCardReview card quality now).ease_factor =
      max (13/10 : ℚ)
        (card.ease_factor + ((1/10 : ℚ) - ((5 - quality : ℤ) : ℚ) *
          ((2/25 : ℚ) + ((5 - quality : ℤ) : ℚ) * (1/50 : ℚ)))) ∧
    (createCardReview card quality now).next_review_at =
      some (now + (createCardReview card quality now).interval_days * 86400) ∧
    (createCardReview ⟨1, 5/2, none⟩ 4 0).interval_days = 6 ∧
    (createCardReview ⟨6, 5/2, none⟩ 5 0).interval_days = 15 := by
  refine ⟨?_, rfl, rfl, by norm_num [createCardReview, pyInt],
    by norm_num [createCardReview, pyInt]⟩
  by_cases hq : quality < 3
  · have hq' : ¬ (3 ≤ quality) := by omega
    simp [createCardReview, hq, hq']
  · have hq' : 3 ≤ quality := by omega
    by_cases h1' : card.interval_days = 1
    · simp [createCardReview, hq, hq', h1']
    · have hprod : 0 ≤ (card.interval_days : ℚ) * card.ease_factor := by
        have : (0 : ℚ) ≤ (card.interval_days : ℚ) := by
          exact_mod_cast le_trans (by norm_num) hi
        exact mul_nonneg this he
      simp [createCardReview, hq, hq', h1', pyInt_eq_floor _ hprod]

theorem srs_update_spec_witness :
    (1 : ℤ) ≤ 4 ∧ (4 : ℤ) ≤ 5 ∧ (1 : ℤ) ≤ (1 : ℤ) ∧ (0 : ℚ) ≤ 5/2 ∧
    ((createCardReview ⟨1, 5/2, none⟩ 4 0).interval_days =
      (if (4 : ℤ) < 3 then 1 else if (1 : ℤ) = 1 then 6
       else ⌊((1 : ℤ) : ℚ) * (5/2 : ℚ)⌋) ∧
     (createCardReview ⟨1, 5/2, none⟩ 4 0).ease_factor =
       max (13/10 : ℚ)
         ((5/2 : ℚ) + ((1/10 : ℚ) - ((5 - 4 : ℤ) : ℚ) *
           ((2/25 : ℚ) + ((5 - 4 : ℤ) : ℚ) * (1/50 : ℚ)))) ∧
     (createCardReview ⟨1, 5/2, none⟩ 4 0).next_review_at =
       some (0 + (createCardReview ⟨1, 5/2, none⟩ 4 0).interval_days * 86400) ∧
     (createCardReview ⟨1, 5/2, none⟩ 4 0).interval_days = 6 ∧
     (createCardReview ⟨6, 5/2, none⟩ 5 0).interval_days = 15) :=
  ⟨by norm_num, by norm_num, by norm_num, by norm_num,
    srs_update_spec ⟨1, 5/2, none⟩ 4 0 (by norm_num) (by norm_num)
      (by norm_num) (by norm_num)⟩

/-- C5: after every review the ease factor is at least 1.3, and repeated
failed reviews (quality 1) never drive it below 1.3. -/
theorem srs_ease_floor (card : Card) (quality now : ℤ) (n : ℕ) (hn : 1 ≤ n) :
    (13/10 : ℚ) ≤ (createCardReview card quality now).ease_factor ∧
    (13/10 : ℚ) ≤
      ((fun c => createCardReview c 1 now)^[n] card).ease_factor := by
  constructor
  · exact le_max_left _ _
  · obtain ⟨m, rfl⟩ : ∃ m, n = m + 1 := ⟨n - 1, by omega⟩
    rw [Function.iterate_succ_apply']
    exact le_max_left _ _

theorem srs_ease_floor_witness :
    (1 ≤ 3) ∧
    ((13/10 : ℚ) ≤ (createCardReview ⟨6, 5/2, none⟩ 1 0).ease_factor ∧
     (13/10 : ℚ) ≤
       ((fun c => createCardReview c 1 0)^[3] (⟨6, 5/2, none⟩ : Card)).ease_factor) :=
  ⟨by norm_num, srs_ease_floor ⟨6, 5/2, none⟩ 1 0 3 (by norm_num)⟩

/-- C9: with a truthy `notebook_id` filter, every result of
`VectorStoreService.query` carries exactly that `notebook_id` metadata —
entries of other notebooks never appear, regardless of distance, because the
equality filter restricts the candidate set at the index. -/
theorem query_notebook_filter (entries : List VEntry) (embed : String → List ℚ)
    (dist : List ℚ → List ℚ → ℚ) (queryText : String) (nb : String)
    (user_id : Option String) (k : Nat) (hnb : nb ≠ "") :
    ∀ r ∈ vsQuery entries embed dist queryText (some nb) user_id k,
      r.metadata.notebook_id = nb := by
  intro r hr
  simp only [vsQuery, if_neg hnb] at hr
  rcases List.mem_map.mp hr with ⟨e, he, rfl⟩
  simp only [chromaQuery] at he
  have he' := mem_sortByKey (List.mem_of_mem_take he)
  exact of_decide_eq_true (List.mem_filter.mp he').2

theorem query_notebook_filter_witness :
    ("nb1" ≠ "") ∧
    (∀ r ∈ vsQuery
        [⟨"m1_chunk_0", [1], "alpha", ⟨"m1", "nb1", "u1", 0, 1, "T1"⟩⟩,
         ⟨"m2_chunk_0", [2], "beta", ⟨"m2", "nb2", "u2", 0, 1, "T2"⟩⟩]
        (fun _ => [0]) (fun _ _ => 0) "q" (some "nb1") (some "u1") 5,
      r.metadata.notebook_id = "nb1") :=
  ⟨by decide,
    query_notebook_filter
      [⟨"m1_chunk_0", [1], "alpha", ⟨"m1", "nb1", "u1", 0, 1, "T1"⟩⟩,
       ⟨"m2_chunk_0", [2], "beta", ⟨"m2", "nb2", "u2", 0, 1, "T2"⟩⟩]
      (fun _ => [0]) (fun _ _ => 0) "q" "nb1" (some "u1") 5 (by decide)⟩

/-- C10 (implicit): with a falsy `notebook_id` (`None` or `""`) the query
applies no metadata filter at all — the ranked candidates are the whole
collection, across all notebooks and users — and the `user_id` parameter is
ignored entirely. -/
theorem query_falsy_filter_unfiltered (entries : List VEntry)
    (embed : String → List ℚ) (dist : List ℚ → List ℚ → ℚ) (queryText : String)
    (uid uid' : Option String) (k : Nat) (nbF : Option String)
    (hF : nbF = none ∨ nbF = some "") :
    vsQuery entries embed dist queryText nbF uid k =
      ((sortByKey (fun e => dist (embed queryText) e.embedding) entries).take k).map
        (fun e =>
          { id := e.id, text := e.document, metadata := e.metadata,
            distance := dist (embed queryText) e.embedding,
            similarity := 1 - dist (embed queryText) e.embedding }) ∧
    vsQuery entries embed dist queryText nbF uid k =
      vsQuery entries embed dist queryText nbF uid' k := by
  rcases hF with rfl | rfl <;> exact ⟨rfl, rfl⟩

theorem query_falsy_filter_unfiltered_witness :
    ((none : Option String) = none ∨ (none : Option String) = some "") ∧
    (vsQuery
        [⟨"m1_chunk_0", [1], "alpha", ⟨"m1", "nb1", "u1", 0, 1, "T1"⟩⟩,
         ⟨"m2_chunk_0", [2], "beta", ⟨"m2", "nb2", "u2", 0, 1, "T2"⟩⟩]
        (fun _ => [0]) (fun _ _ => 0) "q" none (some "u1") 5 =
      ((sortByKey (fun e => (0 : ℚ))
          [⟨"m1_chunk_0", [1], "alpha", ⟨"m1", "nb1", "u1", 0, 1, "T1"⟩⟩,
           ⟨"m2_chunk_0", [2], "beta", ⟨"m2", "nb2", "u2", 0, 1, "T2"⟩⟩]).take 5).map
        (fun e =>
          { id := e.id, text := e.document, metadata := e.metadata,
            distance := (0 : ℚ), similarity := 1 - (0 : ℚ) }) ∧
     vsQuery
        [⟨"m1_chunk_0", [1], "alpha", ⟨"m1", "nb1", "u1", 0, 1, "T1"⟩⟩,
         ⟨"m2_chunk_0", [2], "beta", ⟨"m2", "nb2", "u2", 0, 1, "T2"⟩⟩]
        (fun _ => [0]) (fun _ _ => 0) "q" none (some "u1") 5 =
      vsQuery
        [⟨"m1_chunk_0", [1], "alpha", ⟨"m1", "nb1", "u1", 0, 1, "T1"⟩⟩,
         ⟨"m2_chunk_0", [2], "beta", ⟨"m2", "nb2", "u2", 0, 1, "T2"⟩⟩]
        (fun _ => [0]) (fun _ _ => 0) "q" none (some "u2") 5) :=
  ⟨Or.inl rfl,
    query_falsy_filter_unfiltered _ (fun _ => [0]) (fun _ _ => 0) "q"
      (some "u1") (some "u2") 5 none (Or.inl rfl)⟩

/-- C8: when retrieval succeeds with zero results, the event stream still
emits a `sources` event with an empty list and proceeds through `content` to
`done`, with the completion grounded on the fixed
"No relevant documents found." context; no `error` event is emitted. -/
theorem chat_empty_retrieval_events (pr : ChatPrims) (c : ChatCollab)
    (rewrittenQuery : String) (chunks : List String)
    (hrw : c.rewrite = .ok rewrittenQuery)
    (hret : c.retrieve rewrittenQuery = .ok [])
    (hstream : c.stream "No relevant documents found." = (chunks, none)) :
    eventGenerator pr c =
      [.status "Analyzing your question...", .status "Searching documents...",
        .sources [], .status "Generating response..."] ++
        chunks.map .content ++ [.done] ∧
    ∀ m, SSEEvent.error m ∉ eventGenerator pr c := by
  have hctx : formatContextForLLM pr [] = "No relevant documents found." := rfl
  have hsrc : sourcesData pr [] = [] := rfl
  have hgen : eventGenerator pr c =
      [.status "Analyzing your question...", .status "Searching documents...",
        .sources [], .status "Generating response..."] ++
        chunks.map .content ++ [.done] := by
    simp only [eventGenerator, hrw, hret, hsrc, hctx, hstream]
  refine ⟨hgen, ?_⟩
  intro m hm
  rw [hgen] at hm
  simp at hm

theorem chat_empty_retrieval_events_witness :
    (ChatCollab.rewrite ⟨.ok "q", fun _ => .ok [], fun _ => (["Hai"], none)⟩ =
        .ok "q") ∧
    (eventGenerator ⟨id, fun _ => ""⟩
        ⟨.ok "q", fun _ => .ok [], fun _ => (["Hai"], none)⟩ =
      [.status "Analyzing your question...", .status "Searching documents...",
        .sources [], .status "Generating response..."] ++
        ["Hai"].map .content ++ [.done] ∧
      ∀ m, SSEEvent.error m ∉
        eventGenerator ⟨id, fun _ => ""⟩
          ⟨.ok "q", fun _ => .ok [], fun _ => (["Hai"], none)⟩) :=
  ⟨rfl, chat_empty_retrieval_events ⟨id, fun _ => ""⟩
    ⟨.ok "q", fun _ => .ok [], fun _ => (["Hai"], none)⟩ "q" ["Hai"] rfl rfl rfl⟩

/-- C7: any collaborator exception during load, extraction or upsert makes
`index_document` return `False` with the material left unprocessed; the
`processed = true` commit happens only on the empty-text / zero-chunks
short-circuits or after a successful vector upsert. -/
theorem index_document_failure_semantics (cfg : ChunkerConfig)
    (c : IndexCollab) (material : Material)
    (hm : c.findMaterial = some material) (hp : material.processed = false) :
    ((indexDocument cfg c).1 = false → (indexDocument cfg c).2 = some false) ∧
    ((indexDocument cfg c).1 = true ↔ (indexDocument cfg c).2 = some true) ∧
    (∀ fileContent text, c.storageGet = .ok fileContent →
      c.extractText fileContent = .ok text → pyStrip text ≠ "" →
      chunkText cfg text ≠ [] → (indexDocument cfg c).2 = some true →
      ∃ ids, c.addDocuments (chunkText cfg text) = .ok ids) := by
  by_cases hcu : falsyStr material.content_url = true
  · have hr : indexDocument cfg c = (false, some material.processed) := by
      simp [indexDocument, hm, hcu]
    rw [hr, hp]
    refine ⟨fun _ => rfl, by simp, ?_⟩
    intro _ _ _ _ _ _ h
    exact absurd h (by simp)
  · cases hsg : c.storageGet with
    | error e =>
      have hr : indexDocument cfg c = (false, some material.processed) := by
        simp [indexDocument, hm, hcu, hsg]
      rw [hr, hp]
      refine ⟨fun _ => rfl, by simp, ?_⟩
      intro fc _ hfc _ _ _ _
      exact Except.noConfusion hfc
    | ok fc0 =>
      cases hext : c.extractText fc0 with
      | error e =>
        have hr : indexDocument cfg c = (false, some material.processed) := by
          simp [indexDocument, hm, hcu, hsg, hext]
        rw [hr, hp]
        refine ⟨fun _ => rfl, by simp, ?_⟩
        intro fc t hfc ht _ _ _
        injection hfc with hfc'
        rw [← hfc'] at ht
        rw [hext] at ht
        exact Except.noConfusion ht
      | ok text0 =>
        by_cases hblank : pyStrip text0 = ""
        · have hr : indexDocument cfg c = (true, some true) := by
            simp [indexDocument, hm, hcu, hsg, hext, hblank]
          rw [hr]
          refine ⟨fun h => absurd h (by simp), by simp, ?_⟩
          intro fc t hfc ht hblank' _ _
          injection hfc with hfc'
          rw [← hfc'] at ht
          rw [hext] at ht
          injection ht with ht'
          exact absurd (ht' ▸ hblank) hblank'
        · by_cases hchunks : chunkText cfg text0 = []
          · have hr : indexDocument cfg c = (true, some true) := by
              simp [indexDocument, hm, hcu, hsg, hext, hblank, hchunks]
            rw [hr]
            refine ⟨fun h => absurd h (by simp), by simp, ?_⟩
            intro fc t hfc ht _ hchunks' _
            injection hfc with hfc'
            rw [← hfc'] at ht
            rw [hext] at ht
            injection ht with ht'
            exact absurd (ht' ▸ hchunks) hchunks'
          · cases hadd : c.addDocuments (chunkText cfg text0) with
            | error e =>
              have hr : indexDocument cfg c = (false, some material.processed) := by
                simp [indexDocument, hm, hcu, hsg, hext, hblank, hchunks, hadd]
              rw [hr, hp]
              refine ⟨fun _ => rfl, by simp, ?_⟩
              intro fc t hfc ht _ _ h2
              exact absurd h2 (by simp)
            | ok ids =>
              have hr : indexDocument cfg c = (true, some true) := by
                simp [indexDocument, hm, hcu, hsg, hext, hblank, hchunks, hadd]
              rw [hr]
              refine ⟨fun h => absurd h (by simp), by simp, ?_⟩
              intro fc t hfc ht _ _ _
              injection hfc with hfc'
              rw [← hfc'] at ht
              rw [hext] at ht
              injection ht with ht'
              exact ⟨ids, ht' ▸ hadd⟩

theorem index_document_failure_semantics_witness :
    (IndexCollab.findMaterial
        ⟨some ⟨some "f.txt", false⟩, .error "io fail",
          fun _ => .ok "", fun _ => .ok []⟩ = some ⟨some "f.txt", false⟩) ∧
    (((indexDocument ⟨10, 5, wordCount⟩
        ⟨some ⟨some "f.txt", false⟩, .error "io fail",
          fun _ => .ok "", fun _ => .ok []⟩).1 = false →
      (indexDocument ⟨10, 5, wordCount⟩
        ⟨some ⟨some "f.txt", false⟩, .error "io fail",
          fun _ => .ok "", fun _ => .ok []⟩).2 = some false) ∧
     ((indexDocument ⟨10, 5, wordCount⟩
        ⟨some ⟨some "f.txt", false⟩, .error "io fail",
          fun _ => .ok "", fun _ => .ok []⟩).1 = true ↔
      (indexDocument ⟨10, 5, wordCount⟩
        ⟨some ⟨some "f.txt", false⟩, .error "io fail",
          fun _ => .ok "", fun _ => .ok []⟩).2 = some true) ∧
     (∀ fileContent text,
        IndexCollab.storageGet
          ⟨some ⟨some "f.txt", false⟩, .error "io fail",
            fun _ => .ok "", fun _ => .ok []⟩ = .ok fileContent →
        IndexCollab.extractText
          ⟨some ⟨some "f.txt", false⟩, .error "io fail",
            fun _ => .ok "", fun _ => .ok []⟩ fileContent = .ok text →
        pyStrip text ≠ "" → chunkText ⟨10, 5, wordCount⟩ text ≠ [] →
        (indexDocument ⟨10, 5, wordCount⟩
          ⟨some ⟨some "f.txt", false⟩, .error "io fail",
            fun _ => .ok "", fun _ => .ok []⟩).2 = some true →
        ∃ ids,
          IndexCollab.addDocuments
            ⟨some ⟨some "f.txt", false⟩, .error "io fail",
              fun _ => .ok "", fun _ => .ok []⟩
            (chunkText ⟨10, 5, wordCount⟩ text) = .ok ids)) :=
  ⟨rfl, index_document_failure_semantics ⟨10, 5, wordCount⟩
    ⟨some ⟨some "f.txt", false⟩, .error "io fail",
      fun _ => .ok "", fun _ => .ok []⟩ ⟨some "f.txt", false⟩ rfl rfl⟩

/-- C6 counterexample: on the completion text `"sure: [oops]"` the direct
parse fails, a bracketed substring is found, and the second `json.loads` —
which the code does not guard — fails, so the exception propagates to the
caller instead of degrading to the empty list. -/
theorem flashcard_parse_counterexample :
    parseCardsData "sure: [oops]" = .raised "json.decoder.JSONDecodeError" ∧
    jsonLoads "sure: [oops]" = none ∧
    extractArraySub "sure: [oops]" = some "[oops]" := ⟨rfl, rfl, rfl⟩

/-- C6 (amended): a directly parsable response is used as parsed; when the
direct parse fails and no bracketed array substring exists (no `]` at or
after the first `[`), the function returns the empty list without raising;
but when a bracketed substring is found and its parse also fails, the
`JSONDecodeError` of the unguarded second `json.loads` propagates to the
caller. -/
theorem flashcard_parse_amended (text : String) :
    (∀ j, jsonLoads text = some j → parseCardsData text = .parsed j) ∧
    (jsonLoads text = none →
      ']' ∉ text.data.dropWhile (fun c => c ≠ '[') →
      parseCardsData text = .empty) ∧
    (∀ sub, jsonLoads text = none → extractArraySub text = some sub →
      jsonLoads sub = none →
      parseCardsData text = .raised "json.decoder.JSONDecodeError") := by
  refine ⟨?_, ?_, ?_⟩
  · intro j hj
    simp [parseCardsData, hj]
  · intro hnone hnobr
    have hex : extractArraySub text = none := by
      have hrev : (text.data.dropWhile (fun c => c ≠ '[')).reverse.dropWhile
          (fun c => c ≠ ']') = [] := by
        rw [List.dropWhile_eq_nil_iff]
        intro x hx
        have hx' : x ∈ text.data.dropWhile (fun c => c ≠ '[') :=
          List.mem_reverse.mp hx
        have : x ≠ ']' := fun h => hnobr (h ▸ hx')
        simpa using this
      simp [extractArraySub, hrev]
      simpa using hnobr
    simp [parseCardsData, hnone, hex]
  · intro sub hnone hsub hsubnone
    simp [parseCardsData, hnone, hsub, hsubnone]

theorem flashcard_parse_amended_witness :
    (jsonLoads "no cards today" = none ∧
      ']' ∉ "no cards today".data.dropWhile (fun c => c ≠ '[')) ∧
    parseCardsData "no cards today" = .empty :=
  ⟨⟨rfl, by decide⟩,
    (flashcard_parse_amended "no cards today").2.1 rfl (by decide)⟩

/-! ### Chunker lemmas -/

lemma sumTokens_nil (cfg : ChunkerConfig) : sumTokens cfg [] = 0 := rfl

lemma sumTokens_cons (cfg : ChunkerConfig) (x : String) (l : List String) :
    sumTokens cfg (x :: l) = cfg.countTokens x + sumTokens cfg l := by
  simp [sumTokens]

lemma sumTokens_append (cfg : ChunkerConfig) (a b : List String) :
    sumTokens cfg (a ++ b) = sumTokens cfg a + sumTokens cfg b := by
  simp [sumTokens]

lemma sumTokens_reverse (cfg : ChunkerConfig) (l : List String) :
    sumTokens cfg l.reverse = sumTokens cfg l := by
  simp [sumTokens, List.map_reverse, List.sum_reverse]

/-- Characterization of the `_get_overlap_sentences` scan: it returns the
reversed longest prefix of the reversed input whose running totals fit. -/
lemma getOverlapGo_spec (cfg : ChunkerConfig) (target : Nat) :
    ∀ (rev ov : List String) (t : Nat),
      ∃ k, k ≤ rev.length ∧
        getOverlapGo cfg target rev ov t = (rev.take k).reverse ++ ov ∧
        (k = 0 ∨ t + sumTokens cfg (rev.take k) ≤ target) ∧
        (∀ j, j ≤ rev.length → t + sumTokens cfg (rev.take j) ≤ target →
          j ≤ k) := by
  intro rev
  induction rev with
  | nil =>
    intro ov t
    refine ⟨0, Nat.le_refl _, by simp [getOverlapGo], Or.inl rfl, ?_⟩
    intro j hj _
    simp at hj
    omega
  | cons x rest ih =>
    intro ov t
    by_cases h : t + cfg.countTokens x ≤ target
    · obtain ⟨k', hk'len, heq, hbound, hmax⟩ := ih (x :: ov) (t + cfg.countTokens x)
      refine ⟨k' + 1, by simpa using hk'len, ?_, ?_, ?_⟩
      · rw [getOverlapGo]
        simp only [if_pos h]
        rw [heq]
        simp [List.reverse_cons, List.append_assoc]
      · right
        rcases hbound with rfl | hb
        · simpa [sumTokens_cons, sumTokens_nil] using h
        · rw [List.take_succ_cons, sumTokens_cons]
          omega
      · intro j hj hsum
        cases j with
        | zero => omega
        | succ j' =>
          rw [List.take_succ_cons, sumTokens_cons] at hsum
          have := hmax j' (by simpa using hj) (by omega)
          omega
    · refine ⟨0, Nat.zero_le _, ?_, Or.inl rfl, ?_⟩
      · rw [getOverlapGo]
        simp [if_neg h]
      · intro j hj hsum
        cases j with
        | zero => omega
        | succ j' =>
          rw [List.take_succ_cons, sumTokens_cons] at hsum
          omega

/-- `_get_overlap_sentences` returns the maximal suffix of `sentences` whose
summed token count is at most `target`. -/
lemma getOverlapSentences_spec (cfg : ChunkerConfig) (sentences : List String)
    (target : Nat) :
    getOverlapSentences cfg sentences target <:+ sentences ∧
    sumTokens cfg (getOverlapSentences cfg sentences target) ≤ target ∧
    ∀ suf, suf <:+ sentences → sumTokens cfg suf ≤ target →
      suf <:+ getOverlapSentences cfg sentences target := by
  obtain ⟨k, hklen, heq, hbound, hmax⟩ :=
    getOverlapGo_spec cfg target sentences.reverse [] 0
  have hres : getOverlapSentences cfg sentences target =
      (sentences.reverse.take k).reverse := by
    rw [getOverlapSentences, heq, List.append_nil]
  refine ⟨?_, ?_, ?_⟩
  · rw [hres]
    have htp := List.take_prefix k sentences.reverse
    have := List.reverse_suffix.mpr htp
    rwa [List.reverse_reverse] at this
  · rw [hres, sumTokens_reverse]
    rcases hbound with rfl | hb
    · simp [sumTokens_nil]
    · omega
  · intro suf hsuf hsum
    have hpre : suf.reverse <+: sentences.reverse :=
      List.reverse_prefix.mpr hsuf
    have htake : suf.reverse = sentences.reverse.take suf.reverse.length :=
      List.prefix_iff_eq_take.mp hpre
    have hlen : suf.reverse.length ≤ sentences.reverse.length :=
      hpre.length_le
    have hsum' : 0 + sumTokens cfg (sentences.reverse.take suf.reverse.length) ≤
        target := by
      rw [← htake, sumTokens_reverse]
      omega
    have hjk : suf.reverse.length ≤ k := hmax _ hlen hsum'
    have hpre2 : suf.reverse <+: sentences.reverse.take k := by
      rw [htake]
      have : (sentences.reverse.take k).take suf.reverse.length <+:
          sentences.reverse.take k := List.take_prefix _ _
      rwa [List.take_take, Nat.min_eq_left hjk] at this
    have := List.reverse_suffix.mpr hpre2
    rw [List.reverse_reverse] at this
    rw [hres]
    exact this

/-- C2: when the next sentence fits the budget on its own but would push the
running token count over `chunk_size`, the loop emits the current chunk
joined by single spaces, and the next chunk's sentence list is exactly the
maximal suffix of the just-emitted sentence list whose summed token count is
at most `overlap_tokens`, followed by the triggering sentence. -/
theorem chunk_overlap_seed (cfg : ChunkerConfig) (rest chunks current : List String)
    (currentTokens : Nat) (s : String)
    (hfits : cfg.countTokens s ≤ cfg.chunkSize)
    (hover : cfg.chunkSize < currentTokens + cfg.countTokens s) :
    chunkLoop cfg (s :: rest) chunks current currentTokens =
      chunkLoop cfg rest (chunks ++ [joinSp current])
        (getOverlapSentences cfg current cfg.chunkOverlap ++ [s])
        (sumTokens cfg (getOverlapSentences cfg current cfg.chunkOverlap ++ [s])) ∧
    getOverlapSentences cfg current cfg.chunkOverlap <:+ current ∧
    sumTokens cfg (getOverlapSentences cfg current cfg.chunkOverlap) ≤
      cfg.chunkOverlap ∧
    (∀ suf, suf <:+ current → sumTokens cfg suf ≤ cfg.chunkOverlap →
      suf <:+ getOverlapSentences cfg current cfg.chunkOverlap) := by
  obtain ⟨hsuffix, hbound, hmax⟩ :=
    getOverlapSentences_spec cfg current cfg.chunkOverlap
  refine ⟨?_, hsuffix, hbound, hmax⟩
  rw [chunkLoop]
  simp only [if_neg (not_lt.mpr hfits), if_pos hover]

theorem chunk_overlap_seed_witness :
    (wordCount "e f g h i j k l." ≤ 10 ∧ 10 < 4 + wordCount "e f g h i j k l.") ∧
    (chunkLoop ⟨10, 5, wordCount⟩ ["e f g h i j k l."] [] ["a b c d."] 4 =
      chunkLoop ⟨10, 5, wordCount⟩ [] ([] ++ [joinSp ["a b c d."]])
        (getOverlapSentences ⟨10, 5, wordCount⟩ ["a b c d."] 5 ++ ["e f g h i j k l."])
        (sumTokens ⟨10, 5, wordCount⟩
          (getOverlapSentences ⟨10, 5, wordCount⟩ ["a b c d."] 5 ++
            ["e f g h i j k l."])) ∧
      getOverlapSentences ⟨10, 5, wordCount⟩ ["a b c d."] 5 <:+ ["a b c d."] ∧
      sumTokens ⟨10, 5, wordCount⟩
        (getOverlapSentences ⟨10, 5, wordCount⟩ ["a b c d."] 5) ≤ 5 ∧
      (∀ suf, suf <:+ ["a b c d."] →
        sumTokens ⟨10, 5, wordCount⟩ suf ≤ 5 →
        suf <:+ getOverlapSentences ⟨10, 5, wordCount⟩ ["a b c d."] 5)) :=
  ⟨⟨by decide, by decide⟩,
    chunk_overlap_seed ⟨10, 5, wordCount⟩ [] [] ["a b c d."] 4
      "e f g h i j k l." (by decide) (by decide)⟩

/-! ### Word-count tokenizer lemmas -/

lemma wordsGo_append_space (l : List Char) :
    ∀ cur, wordsGo (l ++ [' ']) cur = wordsGo l cur := by
  induction l with
  | nil =>
    intro cur
    by_cases hc : cur = [] <;> simp [wordsGo, pyWS, hc]
  | cons c l' ih =>
    intro cur
    simp only [List.cons_append, wordsGo]
    by_cases hw : pyWS c
    · by_cases hc : cur = [] <;> simp [hw, hc, ih]
    · simp [hw, ih]

lemma wordsGo_split (l1 : List Char) :
    ∀ (l2 cur : List Char),
      wordsGo (l1 ++ ' ' :: l2) cur = wordsGo (l1 ++ [' ']) cur ++ wordsGo l2 [] := by
  induction l1 with
  | nil =>
    intro l2 cur
    by_cases hc : cur = [] <;> simp [wordsGo, pyWS, hc]
  | cons c l1' ih =>
    intro l2 cur
    simp only [List.cons_append, wordsGo]
    by_cases hw : pyWS c
    · by_cases hc : cur = []
      · rw [if_pos hw, if_pos hw, if_pos hc, if_pos hc]
        exact ih l2 []
      · rw [if_pos hw, if_pos hw, if_neg hc, if_neg hc]
        rw [List.cons_append]
        exact congrArg _ (ih l2 [])
    · rw [if_neg hw, if_neg hw]
      exact ih l2 (c :: cur)

lemma strApp_data (s t : String) : (s ++ t).data = s.data ++ t.data := rfl

lemma pyWords_append_space (w : String) : pyWords (w ++ " ") = pyWords w := by
  show wordsGo (w ++ " ").data [] = wordsGo w.data []
  have h : (w ++ " ").data = w.data ++ [' '] := rfl
  rw [h, wordsGo_append_space]

lemma pyWords_sep (a b : String) :
    pyWords (a ++ " " ++ b) = pyWords a ++ pyWords b := by
  show wordsGo (a ++ " " ++ b).data [] = wordsGo a.data [] ++ wordsGo b.data []
  have h : (a ++ " " ++ b).data = a.data ++ ' ' :: b.data := by
    rw [strApp_data, strApp_data]
    simp
  rw [h, wordsGo_split, wordsGo_append_space]

lemma wordCount_space (w : String) : wordCount (w ++ " ") = wordCount w := by
  rw [wordCount, wordCount, pyWords_append_space]

lemma wordCount_joinSp :
    ∀ l : List String, l ≠ [] → wordCount (joinSp l) = (l.map wordCount).sum := by
  intro l
  induction l with
  | nil => intro h; exact absurd rfl h
  | cons x rest ih =>
    intro _
    cases rest with
    | nil => simp [joinSp, wordCount]
    | cons y rest' =>
      have hj : joinSp (x :: y :: rest') = x ++ " " ++ joinSp (y :: rest') := rfl
      rw [hj, wordCount, pyWords_sep, List.length_append]
      rw [List.map_cons, List.sum_cons]
      have := ih (by simp)
      rw [wordCount] at this ⊢
      omega

/-! ### Chunk-size bound -/

/-- Every group emitted by the `_split_long_sentence` loop stays within
`chunk_size`, provided every single word (with its trailing space) fits. -/
lemma splitLongGo_bound (cfg : ChunkerConfig)
    (hadd : ∀ l : List String, l ≠ [] →
      cfg.countTokens (joinSp l) ≤ sumTokens cfg l)
    (hsp : ∀ w : String, cfg.countTokens w ≤ cfg.countTokens (w ++ " ")) :
    ∀ (ws chunks current : List String),
      (∀ w ∈ ws, cfg.countTokens (w ++ " ") ≤ cfg.chunkSize) →
      (∀ g ∈ chunks, cfg.countTokens g ≤ cfg.chunkSize) →
      (current.map (fun w => cfg.countTokens (w ++ " "))).sum ≤ cfg.chunkSize →
      ∀ g ∈ splitLongGo cfg ws chunks current
          ((current.map (fun w => cfg.countTokens (w ++ " "))).sum),
        cfg.countTokens g ≤ cfg.chunkSize := by
  have hcur : ∀ current : List String, current ≠ [] →
      cfg.countTokens (joinSp current) ≤
        (current.map (fun w => cfg.countTokens (w ++ " "))).sum := by
    intro current hne
    refine le_trans (hadd current hne) ?_
    exact List.sum_le_sum fun w _ => hsp w
  intro ws
  induction ws with
  | nil =>
    intro chunks current hW hchunks hsum g hg
    rw [splitLongGo] at hg
    split at hg
    · exact hchunks g hg
    · rcases List.mem_append.mp hg with h | h
      · exact hchunks g h
      · rw [List.mem_singleton.mp h]
        next hne => exact le_trans (hcur current hne) hsum
  | cons w ws' ih =>
    intro chunks current hW hchunks hsum g hg
    rw [splitLongGo] at hg
    split at hg
    · next hbig =>
      have hw1 : ((([w]).map (fun x => cfg.countTokens (x ++ " "))).sum) =
          cfg.countTokens (w ++ " ") := by simp
      rw [← hw1] at hg
      refine ih _ _ (fun x hx => hW x (List.mem_cons_of_mem _ hx)) ?_
        (by rw [hw1]; exact hW w (List.mem_cons_self _ _)) g hg
      intro g' hg'
      split at hg'
      · exact hchunks g' hg'
      · rcases List.mem_append.mp hg' with h | h
        · exact hchunks g' h
        · rw [List.mem_singleton.mp h]
          next hne => exact le_trans (hcur current hne) hsum
    · next hsmall =>
      have hs : (current.map (fun x => cfg.countTokens (x ++ " "))).sum +
          cfg.countTokens (w ++ " ") =
          (((current ++ [w]).map (fun x => cfg.countTokens (x ++ " "))).sum) := by
        simp
      rw [hs] at hg
      refine ih _ _ (fun x hx => hW x (List.mem_cons_of_mem _ hx)) hchunks
        ?_ g hg
      rw [← hs]
      omega

/-- Every chunk's per-sentence token sum obeys the `chunk_size + overlap`
bound throughout `chunk_text`'s main loop. -/
lemma chunkLoop_bound (cfg : ChunkerConfig)
    (hadd : ∀ l : List String, l ≠ [] →
      cfg.countTokens (joinSp l) ≤ sumTokens cfg l)
    (hsp : ∀ w : String, cfg.countTokens w ≤ cfg.countTokens (w ++ " ")) :
    ∀ (sentences chunks current : List String),
      (∀ s ∈ sentences, ∀ w ∈ pyWords s,
        cfg.countTokens (w ++ " ") ≤ cfg.chunkSize) →
      (∀ c ∈ chunks, cfg.countTokens c ≤ cfg.chunkSize + cfg.chunkOverlap) →
      sumTokens cfg current ≤ cfg.chunkSize + cfg.chunkOverlap →
      ∀ c ∈ chunkLoop cfg sentences chunks current (sumTokens cfg current),
        cfg.countTokens c ≤ cfg.chunkSize + cfg.chunkOverlap := by
  intro sentences
  induction sentences with
  | nil =>
    intro chunks current hsent hchunks hcur c hc
    rw [chunkLoop] at hc
    split at hc
    · exact hchunks c hc
    · rcases List.mem_append.mp hc with h | h
      · exact hchunks c h
      · rw [List.mem_singleton.mp h]
        next hne => exact le_trans (hadd current hne) hcur
  | cons s rest ih =>
    intro chunks current hsent hchunks hcur c hc
    rw [chunkLoop] at hc
    split at hc
    · -- forced word-wise split of an over-budget sentence
      refine ih _ _ (fun x hx => hsent x (List.mem_cons_of_mem _ hx)) ?_
        (Nat.zero_le _) c hc
      intro g hg
      rcases List.mem_append.mp hg with h | h
      · split at h
        · exact hchunks g h
        · rcases List.mem_append.mp h with h' | h'
          · exact hchunks g h'
          · rw [List.mem_singleton.mp h']
            next hne => exact le_trans (hadd current hne) hcur
      · have hbound := splitLongGo_bound cfg hadd hsp (pyWords s) [] []
          (hsent s (List.mem_cons_self _ _)) (by simp) (Nat.zero_le _) g
        rw [splitLongSentence] at h
        have := hbound (by simpa using h)
        omega
    · next hfits =>
      -- the sentence fits on its own: overflow-and-seed or plain append
      split at hc
      · next hover =>
        refine ih _ _ (fun x hx => hsent x (List.mem_cons_of_mem _ hx)) ?_ ?_ c hc
        · intro g hg
          rcases List.mem_append.mp hg with h | h
          · exact hchunks g h
          · rw [List.mem_singleton.mp h]
            have hne : current ≠ [] := by
              intro hnil
              rw [hnil, sumTokens_nil] at hover
              omega
            exact le_trans (hadd current hne) hcur
        · obtain ⟨-, hovbound, -⟩ :=
            getOverlapSentences_spec cfg current cfg.chunkOverlap
          rw [sumTokens_append, sumTokens_cons, sumTokens_nil]
          omega
      · next hnover =>
        have hs : sumTokens cfg current + cfg.countTokens s =
            sumTokens cfg (current ++ [s]) := by
          simp [sumTokens_append, sumTokens_cons, sumTokens_nil]
        rw [hs] at hc
        refine ih _ _ (fun x hx => hsent x (List.mem_cons_of_mem _ hx)) hchunks
          ?_ c hc
        rw [← hs]
        omega

/-- C1 counterexample: with the word-count tokenizer, chunk size 10 and
overlap 5, the two-sentence text below makes the overlap seeding build a
12-token current chunk (overlap 4 + sentence 8), which the final flush emits
— a returned chunk whose token count exceeds `chunk_size_tokens`. -/
theorem chunk_token_bound_counterexample :
    chunkText ⟨10, 5, wordCount⟩ "a b c d. e f g h i j k l." =
      ["a b c d.", "a b c d. e f g h i j k l."] ∧
    wordCount "a b c d. e f g h i j k l." = 12 ∧
    ¬ (∀ c ∈ chunkText ⟨10, 5, wordCount⟩ "a b c d. e f g h i j k l.",
        wordCount c ≤ 10) := by
  refine ⟨by decide, by decide, ?_⟩
  intro h
  exact absurd (h "a b c d. e f g h i j k l." (by decide)) (by decide)

/-- C1 (amended): chunks returned by `chunk_text` are bounded by
`chunk_size_tokens + overlap_tokens` rather than `chunk_size_tokens` — the
overlap seeding can push a chunk past `chunk_size` by up to the overlap
budget — under a tokenizer that is subadditive across space-joins, does not
count a word above its spaced form, and for which every single word of the
text fits the chunk budget (otherwise a forced singleton word group may
exceed every bound). -/
theorem chunk_token_bound_amended (cfg : ChunkerConfig) (text : String)
    (hadd : ∀ l : List String, l ≠ [] →
      cfg.countTokens (joinSp l) ≤ sumTokens cfg l)
    (hsp : ∀ w : String, cfg.countTokens w ≤ cfg.countTokens (w ++ " "))
    (hW : ∀ s ∈ splitIntoSentences text, ∀ w ∈ pyWords s,
      cfg.countTokens (w ++ " ") ≤ cfg.chunkSize) :
    ∀ c ∈ chunkText cfg text,
      cfg.countTokens c ≤ cfg.chunkSize + cfg.chunkOverlap := by
  intro c hc
  rw [chunkText] at hc
  split at hc
  · exact absurd hc (List.not_mem_nil c)
  · exact chunkLoop_bound cfg hadd hsp (splitIntoSentences text) [] [] hW
      (by simp) (Nat.zero_le _) c hc

theorem chunk_token_bound_amended_witness :
    (∀ s ∈ splitIntoSentences "a b c d. e f g h i j k l.",
      ∀ w ∈ pyWords s, wordCount (w ++ " ") ≤ 10) ∧
    (∀ c ∈ chunkText ⟨10, 5, wordCount⟩ "a b c d. e f g h i j k l.",
      wordCount c ≤ 10 + 5) :=
  ⟨by decide,
    chunk_token_bound_amended ⟨10, 5, wordCount⟩ "a b c d. e f g h i j k l."
      (fun l hl => le_of_eq (wordCount_joinSp l hl))
      (fun w => le_of_eq (wordCount_space w).symm)
      (by decide)⟩

/-! ### Sentence coverage -/

/-- Every character of every piece produced by the sentence-split scanner
comes from the seed accumulator, the current piece, or the input. -/
lemma sentSplitGo_subset :
    ∀ (cs cur : List Char) (skipping : Bool) (acc : List (List Char))
      (piece : List Char), piece ∈ sentSplitGo cs cur skipping acc →
      piece ∈ acc ∨ (∀ c ∈ piece, c ∈ cur ∨ c ∈ cs) := by
  intro cs
  induction cs with
  | nil =>
    intro cur skipping acc piece h
    rw [sentSplitGo] at h
    rcases List.mem_append.mp h with h | h
    · exact Or.inl h
    · right
      rw [List.mem_singleton.mp h]
      intro c hc
      exact Or.inl (List.mem_reverse.mp hc)
  | cons c0 rest ih =>
    intro cur skipping acc piece h
    have hnext : ∀ (cur' : List Char) (skipping' : Bool) (acc' : List (List Char)),
        piece ∈ sentSplitGo rest cur' skipping' acc' →
        (∀ c ∈ cur', c = c0 ∨ c ∈ cur) →
        acc' = acc ∨ (acc' = acc ++ [cur.reverse]) →
        piece ∈ acc ∨ (∀ c ∈ piece, c ∈ cur ∨ c ∈ c0 :: rest) := by
      intro cur' skipping' acc' hmem hcur hacc
      rcases ih cur' skipping' acc' piece hmem with hin | hchars
      · rcases hacc with rfl | rfl
        · exact Or.inl hin
        · rcases List.mem_append.mp hin with h' | h'
          · exact Or.inl h'
          · right
            rw [List.mem_singleton.mp h']
            intro c hc
            exact Or.inl (List.mem_reverse.mp hc)
      · right
        intro c hc
        rcases hchars c hc with h' | h'
        · rcases hcur c h' with rfl | h''
          · exact Or.inr (List.mem_cons_self _ _)
          · exact Or.inl h''
        · exact Or.inr (List.mem_cons_of_mem _ h')
    rw [sentSplitGo.eq_def] at h
    simp only [] at h
    cases skipping with
    | true =>
      rw [if_pos rfl] at h
      split at h
      · exact hnext [] true acc h (by simp) (Or.inl rfl)
      · exact hnext [c0] false acc h (by simp) (Or.inl rfl)
    | false =>
      rw [if_neg (by simp)] at h
      cases cur with
      | nil => exact hnext [c0] false acc h (by simp) (Or.inl rfl)
      | cons p ps =>
        simp only [] at h
        by_cases hspl : (isSentEnd p && pyWS c0) = true
        · rw [if_pos hspl] at h
          exact hnext [] true (acc ++ [(p :: ps).reverse]) h (by simp)
            (Or.inr rfl)
        · rw [if_neg hspl] at h
          exact hnext (c0 :: p :: ps) false acc h
            (by intro c hc
                rcases List.mem_cons.mp hc with rfl | h'
                · exact Or.inl rfl
                · exact Or.inr h') (Or.inl rfl)

lemma trimChars_eq_nil_of_ws (l : List Char) (h : ∀ c ∈ l, pyWS c) :
    trimChars l = [] := by
  rw [trimChars, List.dropWhile_eq_nil_iff.mpr h]
  simp

lemma ws_of_pyStrip_eq_empty (text : String) (h : pyStrip text = "") :
    ∀ c ∈ text.data, pyWS c := by
  have htrim : trimChars text.data = [] := by
    have : (pyStrip text).data = ("" : String).data := by rw [h]
    simpa [pyStrip] using this
  rw [trimChars] at htrim
  have h1 : (text.data.dropWhile pyWS).reverse.dropWhile pyWS = [] := by
    have := congrArg List.reverse htrim
    simpa using this
  have h2 : ∀ c ∈ text.data.dropWhile pyWS, pyWS c := by
    intro c hc
    exact List.dropWhile_eq_nil_iff.mp h1 c (List.mem_reverse.mpr hc)
  intro c hc
  rw [← List.takeWhile_append_dropWhile (p := pyWS) (l := text.data)] at hc
  rcases List.mem_append.mp hc with h' | h'
  · exact List.mem_takeWhile_imp h'
  · exact h2 c h'

/-- A blank text yields no sentences: every piece of the split strips to the
empty string and is filtered out. -/
lemma blank_sentences (text : String) (hb : pyStrip text = "") :
    splitIntoSentences text = [] := by
  rw [splitIntoSentences, List.filter_eq_nil_iff]
  intro s hs
  rcases List.mem_map.mp hs with ⟨piece, hpiece, rfl⟩
  rcases sentSplitGo_subset text.data [] false [] piece hpiece with hin | hchars
  · exact absurd hin (List.not_mem_nil piece)
  · have hws : ∀ c ∈ piece, pyWS c := by
      intro c hc
      rcases hchars c hc with h' | h'
      · exact absurd h' (List.not_mem_nil c)
      · exact ws_of_pyStrip_eq_empty text hb c h'
    simp [pyStrip, trimChars_eq_nil_of_ws piece hws]

/-- A member of a sentence list occurs as a contiguous substring of the
space-joined chunk string. -/
lemma mem_infix_joinSp : ∀ (l : List String) (s : String), s ∈ l →
    s.data <:+: (joinSp l).data := by
  intro l
  induction l with
  | nil => intro s hs; exact absurd hs (List.not_mem_nil s)
  | cons x rest ih =>
    intro s hs
    cases rest with
    | nil =>
      rw [List.mem_singleton.mp hs]
      exact List.infix_refl _
    | cons y rest' =>
      have hj : joinSp (x :: y :: rest') = x ++ " " ++ joinSp (y :: rest') := rfl
      rw [hj]
      rcases List.mem_cons.mp hs with rfl | hmem
      · have hp : s.data <+: (s ++ " " ++ joinSp (y :: rest')).data := by
          rw [strApp_data, strApp_data, List.append_assoc]
          exact List.prefix_append _ _
        exact hp.isInfix
      · have hsuf : (joinSp (y :: rest')).data <:+
            (x ++ " " ++ joinSp (y :: rest')).data := by
          rw [strApp_data]
          exact List.suffix_append _ _
        exact (ih s hmem).trans hsuf.isInfix

lemma splitLongGo_extends (cfg : ChunkerConfig) :
    ∀ (ws chunks current : List String) (ct : Nat),
      chunks <+: splitLongGo cfg ws chunks current ct := by
  intro ws
  induction ws with
  | nil =>
    intro chunks current ct
    rw [splitLongGo]
    split
    · exact List.prefix_refl _
    · exact List.prefix_append _ _
  | cons w ws' ih =>
    intro chunks current ct
    rw [splitLongGo]
    split
    · refine List.IsPrefix.trans ?_ (ih _ _ _)
      split
      · exact List.prefix_refl _
      · exact List.prefix_append _ _
    · exact ih _ _ _

/-- Every word fed to the `_split_long_sentence` loop (or already waiting in
`current`) ends up inside one of the emitted groups. -/
lemma splitLongGo_covers (cfg : ChunkerConfig) :
    ∀ (ws chunks current : List String) (ct : Nat) (w : String),
      w ∈ current ∨ w ∈ ws →
      ∃ g ∈ splitLongGo cfg ws chunks current ct, w.data <:+: g.data := by
  intro ws
  induction ws with
  | nil =>
    intro chunks current ct w hw
    rcases hw with hw | hw
    · have hne : current ≠ [] := List.ne_nil_of_mem hw
      rw [splitLongGo, if_neg hne]
      exact ⟨joinSp current,
        List.mem_append_right _ (List.mem_singleton_self _),
        mem_infix_joinSp _ _ hw⟩
    · exact absurd hw (List.not_mem_nil w)
  | cons w0 ws' ih =>
    intro chunks current ct w hw
    rw [splitLongGo]
    split
    · rcases hw with hw | hw
      · have hne : current ≠ [] := List.ne_nil_of_mem hw
        have hmem : joinSp current ∈
            (if current = [] then chunks else chunks ++ [joinSp current]) := by
          rw [if_neg hne]
          exact List.mem_append_right _ (List.mem_singleton_self _)
        have hpre := splitLongGo_extends cfg ws'
          (if current = [] then chunks else chunks ++ [joinSp current]) [w0]
          (cfg.countTokens (w0 ++ " "))
        exact ⟨joinSp current, hpre.sublist.subset hmem,
          mem_infix_joinSp _ _ hw⟩
      · rcases List.mem_cons.mp hw with rfl | hw'
        · exact ih _ [w] _ w (Or.inl (List.mem_singleton_self _))
        · exact ih _ [w0] _ w (Or.inr hw')
    · rcases hw with hw | hw
      · exact ih _ (current ++ [w0]) _ w (Or.inl (List.mem_append_left _ hw))
      · rcases List.mem_cons.mp hw with rfl | hw'
        · exact ih _ (current ++ [w]) _ w
            (Or.inl (List.mem_append_right _ (List.mem_singleton_self _)))
        · exact ih _ (current ++ [w0]) _ w (Or.inr hw')

lemma chunkLoop_extends (cfg : ChunkerConfig) :
    ∀ (sentences chunks current : List String) (ct : Nat),
      chunks <+: chunkLoop cfg sentences chunks current ct := by
  intro sentences
  induction sentences with
  | nil =>
    intro chunks current ct
    rw [chunkLoop]
    split
    · exact List.prefix_refl _
    · exact List.prefix_append _ _
  | cons s rest ih =>
    intro chunks current ct
    rw [chunkLoop]
    split
    · refine List.IsPrefix.trans ?_ (ih _ _ _)
      refine List.IsPrefix.trans ?_ (List.prefix_append _ _)
      split
      · exact List.prefix_refl _
      · exact List.prefix_append _ _
    · split
      · exact List.IsPrefix.trans (List.prefix_append _ _) (ih _ _ _)
      · exact ih _ _ _

/-- Coverage invariant of the main chunking loop: every pending sentence and
every not-yet-processed sentence is represented in the output — short
sentences as substrings of some chunk, over-budget sentences through their
forced word-split group block. -/
lemma chunkLoop_covers (cfg : ChunkerConfig) :
    ∀ (sentences chunks current : List String) (ct : Nat),
      (∀ s ∈ current,
        ∃ c ∈ chunkLoop cfg sentences chunks current ct, s.data <:+: c.data) ∧
      (∀ s ∈ sentences,
        (cfg.countTokens s ≤ cfg.chunkSize →
          ∃ c ∈ chunkLoop cfg sentences chunks current ct, s.data <:+: c.data) ∧
        (cfg.chunkSize < cfg.countTokens s →
          splitLongSentence cfg s <:+: chunkLoop cfg sentences chunks current ct)) := by
  intro sentences
  induction sentences with
  | nil =>
    intro chunks current ct
    constructor
    · intro s hs
      have hne : current ≠ [] := List.ne_nil_of_mem hs
      rw [chunkLoop, if_neg hne]
      exact ⟨joinSp current,
        List.mem_append_right _ (List.mem_singleton_self _),
        mem_infix_joinSp _ _ hs⟩
    · intro s hs
      exact absurd hs (List.not_mem_nil s)
  | cons s0 rest ih =>
    intro chunks current ct
    by_cases hbig : cfg.chunkSize < cfg.countTokens s0
    · have hred : chunkLoop cfg (s0 :: rest) chunks current ct =
          chunkLoop cfg rest
            ((if current = [] then chunks else chunks ++ [joinSp current]) ++
              splitLongSentence cfg s0) [] 0 := by
        rw [chunkLoop]
        simp only [if_pos hbig]
      rw [hred]
      constructor
      · intro s hs
        have hne : current ≠ [] := List.ne_nil_of_mem hs
        have hmem : joinSp current ∈
            (if current = [] then chunks else chunks ++ [joinSp current]) ++
              splitLongSentence cfg s0 :=
          List.mem_append_left _
            (by rw [if_neg hne]
                exact List.mem_append_right _ (List.mem_singleton_self _))
        have hpre := chunkLoop_extends cfg rest
          ((if current = [] then chunks else chunks ++ [joinSp current]) ++
            splitLongSentence cfg s0) [] 0
        exact ⟨joinSp current, hpre.sublist.subset hmem,
          mem_infix_joinSp _ _ hs⟩
      · intro s hs
        rcases List.mem_cons.mp hs with rfl | hmem
        · refine ⟨fun hfit => absurd hbig (not_lt.mpr hfit), fun _ => ?_⟩
          obtain ⟨t, ht⟩ := chunkLoop_extends cfg rest
            ((if current = [] then chunks else chunks ++ [joinSp current]) ++
              splitLongSentence cfg s) [] 0
          rw [← ht]
          exact ⟨(if current = [] then chunks else chunks ++ [joinSp current]),
            t, by rw [List.append_assoc]⟩
        · exact (ih _ [] 0).2 s hmem
    · by_cases hover : cfg.chunkSize < ct + cfg.countTokens s0
      · have hred : chunkLoop cfg (s0 :: rest) chunks current ct =
            chunkLoop cfg rest (chunks ++ [joinSp current])
              (getOverlapSentences cfg current cfg.chunkOverlap ++ [s0])
              (sumTokens cfg
                (getOverlapSentences cfg current cfg.chunkOverlap ++ [s0])) := by
          rw [chunkLoop]
          simp only [if_neg hbig, if_pos hover]
        rw [hred]
        constructor
        · intro s hs
          have hmem : joinSp current ∈ chunks ++ [joinSp current] :=
            List.mem_append_right _ (List.mem_singleton_self _)
          have hpre := chunkLoop_extends cfg rest (chunks ++ [joinSp current])
            (getOverlapSentences cfg current cfg.chunkOverlap ++ [s0])
            (sumTokens cfg
              (getOverlapSentences cfg current cfg.chunkOverlap ++ [s0]))
          exact ⟨joinSp current, hpre.sublist.subset hmem,
            mem_infix_joinSp _ _ hs⟩
        · intro s hs
          rcases List.mem_cons.mp hs with rfl | hmem
          · refine ⟨fun _ => ?_, fun hbig' => absurd hbig' hbig⟩
            exact (ih _ _ _).1 s
              (List.mem_append_right _ (List.mem_singleton_self _))
          · exact (ih _ _ _).2 s hmem
      · have hred : chunkLoop cfg (s0 :: rest) chunks current ct =
            chunkLoop cfg rest chunks (current ++ [s0])
              (ct + cfg.countTokens s0) := by
          rw [chunkLoop]
          simp only [if_neg hbig, if_neg hover]
        rw [hred]
        constructor
        · intro s hs
          exact (ih _ _ _).1 s (List.mem_append_left _ hs)
        · intro s hs
          rcases List.mem_cons.mp hs with rfl | hmem
          · refine ⟨fun _ => ?_, fun hbig' => absurd hbig' hbig⟩
            exact (ih _ _ _).1 s
              (List.mem_append_right _ (List.mem_singleton_self _))
          · exact (ih _ _ _).2 s hmem

/-- C3: no sentence is dropped — every sentence produced by the splitting
step with token count within the budget appears (as a contiguous substring)
in some returned chunk, and every over-budget sentence's forced word-split
groups appear as a consecutive block of the output, those groups jointly
containing every word of the sentence. -/
theorem chunk_no_sentence_dropped (cfg : ChunkerConfig) (text : String) :
    ∀ s ∈ splitIntoSentences text,
      (cfg.countTokens s ≤ cfg.chunkSize →
        ∃ c ∈ chunkText cfg text, s.data <:+: c.data) ∧
      (cfg.chunkSize < cfg.countTokens s →
        splitLongSentence cfg s <:+: chunkText cfg text ∧
        ∀ w ∈ pyWords s, ∃ g ∈ splitLongSentence cfg s, w.data <:+: g.data) := by
  intro s hs
  rw [chunkText]
  split
  · next hblank =>
    rw [blank_sentences text hblank] at hs
    exact absurd hs (List.not_mem_nil s)
  · have h2 := (chunkLoop_covers cfg (splitIntoSentences text) [] [] 0).2 s hs
    exact ⟨h2.1, fun hbig => ⟨h2.2 hbig,
      fun w hw => splitLongGo_covers cfg (pyWords s) [] [] 0 w (Or.inr hw)⟩⟩

theorem chunk_no_sentence_dropped_witness :
    ("a b c d." ∈ splitIntoSentences "a b c d. e f g h i j k l.") ∧
    ((wordCount "a b c d." ≤ 10 →
        ∃ c ∈ chunkText ⟨10, 5, wordCount⟩ "a b c d. e f g h i j k l.",
          "a b c d.".data <:+: c.data) ∧
     (10 < wordCount "a b c d." →
        splitLongSentence ⟨10, 5, wordCount⟩ "a b c d." <:+:
          chunkText ⟨10, 5, wordCount⟩ "a b c d. e f g h i j k l." ∧
        ∀ w ∈ pyWords "a b c d.",
          ∃ g ∈ splitLongSentence ⟨10, 5, wordCount⟩ "a b c d.",
            w.data <:+: g.data)) :=
  ⟨by decide,
    chunk_no_sentence_dropped ⟨10, 5, wordCount⟩ "a b c d. e f g h i j k l."
      "a b c d." (by decide)⟩

end NotebookApp
